import Mathlib

/-!
Verification of the stutter-detection engine in
detection-Files/stutter_detector.py.

The detectors are embedded shallowly: timestamps and thresholds are
rationals, the word-level transcript is a list of `Word`, and each
detector is a Lean function mirroring the Python control flow.  The
signal-processing library calls (onset detection, pitch tracking, RMS)
are external collaborators; their numeric outputs enter the embedding
as explicit arguments, and their possible exceptions as `Except`
values, so every definition is executable.
-/

-- Batteries marks rational arithmetic irreducible; the detectors are
-- executable definitions, so restore default reducibility for them to
-- let decide evaluate concrete scenarios.
attribute [local semireducible] Rat.add Rat.sub Rat.mul Rat.inv Rat.ofScientific

/-- A transcribed word with timestamps; embeds the Python dict
produced by transcription. The source field name is end; Lean
reserves that keyword, so the field is called stop. -/
structure Word where
  word : String
  start : Rat
  stop : Rat
deriving DecidableEq, Repr, Inhabited

/-- A disfluency event; embeds the Python event dicts.  Variant
specific dict keys become Option fields defaulting to none. -/
structure Event where
  type : String
  word : String
  start : Rat
  stop : Rat
  confidence : Rat
  count : Option Nat := none
  pattern : Option String := none
  inferredSound : Option String := none
  targetWord : Option String := none
  durMs : Option Rat := none
  wordDurMs : Option Rat := none
  voicedRatio : Option Rat := none
  gapDuration : Option Rat := none
  note : Option String := none
deriving DecidableEq, Repr, Inhabited

-- ---------- tunable parameters (module constants of the source) ----------

def PROLONG_MS : Rat := 650

def MIN_WORD_MS_FOR_PROLONG : Rat := 500

def PROLONG_RATIO : Rat := 7/10

def LEADING_SILENCE_IGNORE : Rat := 7/20

def MIN_BURST_GAP_MS : Rat := 80

def MAX_BURST_GAP_MS : Rat := 200

def MIN_BURSTS_FOR_STUTTER : Nat := 5

def IGNORE_SHORT_WORDS : List String :=
  ["i","to","the","a","an","and","is","of","in","it","at","or","for","but",
   "not","can","will","that","these","those","very","difficult"]

/-- Apostrophe character, kept out of string literals. -/
def apos : Char := Char.ofNat 39

/-- Double-quote character, kept out of string literals. -/
def dquote : Char := Char.ofNat 34

def IGNORE_CONTRACTIONS : List String :=
  ["isn","aren","wasn","weren","don","doesn","didn","can","won","wouldn",
   "shouldn","couldn","haven","hasn","hadn"].map
    (fun s => s ++ String.mk [apos] ++ "t")

-- ---------- string normalisation helpers ----------

/-- Python re.sub with pattern \W+ and empty replacement applied to
s.lower(): lower-case, then keep only word characters. -/
def normWord (s : String) : String :=
  String.mk ((s.data.map Char.toLower).filter (fun c => c.isAlphanum || c = '_'))

/-- Python str.strip(chars): remove the given characters from both ends. -/
def stripChars (cs : List Char) (s : String) : String :=
  String.mk (((s.data.dropWhile (fun c => cs.contains c)).reverse.dropWhile
    (fun c => cs.contains c)).reverse)

/-- The punctuation set of the source str.strip calls. -/
def punctChars : List Char := ['.', ',', '!', '?', ';', ':', apos, dquote]

def whitespaceChars : List Char := [' ', '\t', '\n', '\r']

/-- word.strip().lower().strip(punctuation), as in detect_prolongations. -/
def cleanWordProlong (s : String) : String :=
  stripChars punctChars
    (String.mk ((stripChars whitespaceChars s).data.map Char.toLower))

/-- word.strip(punctuation).lower(), as in detect_acoustic_repetitions. -/
def cleanWordAcoustic (s : String) : String :=
  String.mk ((stripChars punctChars s).data.map Char.toLower)

-- ---------- repetition detection (detect_repetitions) ----------

/-- Length of the prefix of ws whose normalised form equals w:
the inner while loop of detect_repetitions. -/
def countRun (w : String) : List Word → Nat
  | [] => 0
  | x :: xs => if normWord x.word = w then 1 + countRun w xs else 0

/-- The outer while loop of detect_repetitions.  Each iteration
consumes one maximal run (or one word with empty normalised form)
and emits at most one event.  The fuel argument makes the recursion
structural; fuel equal to the list length always suffices because
every step consumes at least one word. -/
def repsGo : Nat → List Word → List Event
  | 0, _ => []
  | _ + 1, [] => []
  | fuel + 1, x :: xs =>
    let rw := normWord x.word
    if rw.length < 1 then repsGo fuel xs
    else
      let k := countRun rw xs
      let n := k + 1
      if 3 ≤ n ∧ (3/2 : Rat) ≤ x.start ∧ (rw.length = 1 → (rw = "i" ∨ 4 ≤ n)) then
        { type := "repetition", word := rw, count := some n, start := x.start,
          stop := ((xs.take k).getLastD x).stop, confidence := 19/20 } ::
          repsGo fuel (xs.drop k)
      else repsGo fuel (xs.drop k)

def detect_repetitions (words : List Word) : List Event :=
  repsGo words.length words

/-- The run decomposition induced by the scan of detect_repetitions:
each step consumes a maximal block of words sharing one non-empty
normalised form, or a single word with empty normalised form. -/
def runsGo : Nat → List Word → List (List Word)
  | 0, _ => []
  | _ + 1, [] => []
  | fuel + 1, x :: xs =>
    let rw := normWord x.word
    if rw.length < 1 then [x] :: runsGo fuel xs
    else (x :: xs.take (countRun rw xs)) :: runsGo fuel (xs.drop (countRun rw xs))

/-- The run decomposition of a word list. -/
def wordRuns (words : List Word) : List (List Word) :=
  runsGo words.length words

/-- The event (if any) the scan emits for one run. -/
def eventOfRun : List Word → Option Event
  | [] => none
  | x :: rest =>
    let rw := normWord x.word
    if rw.length < 1 then none
    else
      let n := rest.length + 1
      if 3 ≤ n ∧ (3/2 : Rat) ≤ x.start ∧ (rw.length = 1 → (rw = "i" ∨ 4 ≤ n)) then
        some { type := "repetition", word := rw, count := some n, start := x.start,
               stop := (rest.getLastD x).stop, confidence := 19/20 }
      else none

-- ---------- acoustic repetition detection (detect_acoustic_repetitions) ----------

/-- Number of extension steps of the inner cluster loop: onsets are
absorbed while the gap to the next onset is inside the burst window. -/
def chainLen : Rat → List Rat → Nat
  | _, [] => 0
  | t, u :: us =>
    if MIN_BURST_GAP_MS ≤ (u - t) * 1000 ∧ (u - t) * 1000 ≤ MAX_BURST_GAP_MS then
      1 + chainLen u us
    else 0

/-- The nearest word starting at or after the cluster end within the
1/2 second lookahead (strict minimum of the gap, first wins ties). -/
def findNextWord (endTime : Rat) (words : List Word) : Option Word :=
  words.foldl (fun best w =>
    if endTime ≤ w.start ∧ w.start - endTime < (1/2 : Rat) then
      match best with
      | none => some w
      | some b => if w.start - endTime < b.start - endTime then some w else b
    else best) none

def consonantClusters : List String :=
  ["st","sl","sp","sk","sc","tr","dr","br","cr","fr","gr","pr","th","sh","ch","wh"]

/-- First one or two characters of the cleaned next word, preferring a
two-character consonant cluster. -/
def inferSound (wt : String) : String :=
  if 2 ≤ wt.length ∧ consonantClusters.contains (String.mk (wt.data.take 2)) then
    String.mk (wt.data.take 2)
  else
    match wt.data with
    | [] => "?"
    | c :: _ => String.mk [c]

/-- Build the acoustic-repetition event for one qualifying cluster,
naming the repeated sound from the following word when one exists. -/
def acousticEventFor (words : List Word) (startTime endTime : Rat)
    (burstCount : Nat) : Event :=
  let base : Event :=
    { type := "acoustic_repetition", pattern := some "rapid_bursts",
      count := some burstCount, start := startTime, stop := endTime,
      confidence := 4/5, word := "" }
  if words.isEmpty then { base with word := "sound bursts" }
  else
    match findNextWord endTime words with
    | some nw =>
      let s := inferSound (cleanWordAcoustic nw.word)
      { base with inferredSound := some s, targetWord := some nw.word,
                  word := s ++ "-" ++ s ++ "-... (" ++ nw.word ++ ")" }
    | none => { base with word := "unknown sound" }

/-- The outer cluster loop of detect_acoustic_repetitions, with
structural fuel (the onset count suffices). -/
def acousticGo (words : List Word) : Nat → List Rat → List Event
  | 0, _ => []
  | _ + 1, [] => []
  | fuel + 1, t :: ts =>
    let k := chainLen t ts
    let burstCount := k + 1
    let endTime := (ts.take k).getLastD t
    if MIN_BURSTS_FOR_STUTTER ≤ burstCount ∧ (3/2 : Rat) ≤ t then
      acousticEventFor words t endTime burstCount :: acousticGo words fuel (ts.drop k)
    else acousticGo words fuel (ts.drop k)

/-- detect_acoustic_repetitions.  The librosa onset call is an external
collaborator: its result (onset times in seconds) or its exception
enters as an Except value; the try/except of the source catches the
exception before any event is produced, emits a warning and returns
the empty list. -/
def detect_acoustic_repetitions (onsetRes : Except String (List Rat))
    (words : List Word) : List Event × List String :=
  match onsetRes with
  | Except.error e =>
    ([], ["Warning: Acoustic repetition detection error: " ++ e])
  | Except.ok onsetTimes =>
    if onsetTimes.length < MIN_BURSTS_FOR_STUTTER then ([], [])
    else (acousticGo words onsetTimes.length onsetTimes, [])

-- ---------- numpy helpers ----------

/-- numpy median: middle element of the sorted list, or the mean of the
two middle elements.  Call sites guard against the empty list. -/
def median (l : List Rat) : Rat :=
  let s := l.insertionSort (fun a b => a ≤ b)
  let n := s.length
  if n = 0 then 0
  else if n % 2 = 1 then s.getD (n / 2) 0
  else (s.getD (n / 2 - 1) 0 + s.getD (n / 2) 0) / 2

/-- Computable absolute value on the rationals (Python abs). -/
def ratAbs (q : Rat) : Rat := if q < 0 then -q else q

/-- Mean of a list of rationals (0 for the empty list). -/
def meanRat (l : List Rat) : Rat :=
  if l.isEmpty then 0 else l.sum / (l.length : Rat)

-- ---------- block detection (detect_blocks) ----------

/-- One entry of the gaps list of detect_blocks. -/
structure GapInfo where
  duration : Rat
  word_idx : Nat
  start_time : Rat
  end_time : Rat
deriving DecidableEq, Repr

def ABSOLUTE_BLOCK_THRESHOLD : Rat := 3/2

/-- The gap-collection loop of detect_blocks: consecutive word pairs
whose silence gap is positive, below 3 seconds, and not inside the
leading-silence region. -/
def blockGaps (words : List Word) : List GapInfo :=
  ((words.zip (words.drop 1)).enum).filterMap (fun p =>
    let i := p.1 + 1
    let prev := p.2.1
    let curr := p.2.2
    let gap := curr.start - prev.stop
    if LEADING_SILENCE_IGNORE < curr.start ∧ (1/100 : Rat) < gap ∧ gap < 3 then
      some { duration := gap, word_idx := i, start_time := prev.stop,
             end_time := curr.start }
    else none)

/-- Gap-based block events: flagged when the gap reaches the absolute
threshold and the following word starts at or after 1.5 seconds.
Requires at least two collected gaps. -/
def gapBlockEvents (words : List Word) : List Event :=
  let gaps := blockGaps words
  if gaps.length < 2 then []
  else gaps.filterMap (fun g =>
    if ABSOLUTE_BLOCK_THRESHOLD ≤ g.duration then
      let w := words.getD g.word_idx default
      if w.start < (3/2 : Rat) then none
      else some { type := "block", word := w.word, start := w.start, stop := w.stop,
                  gapDuration := some g.duration, confidence := 17/20 }
    else none)

/-- The abnormally-long-word candidate of detect_blocks for one word,
given the events accumulated so far. -/
def longWordCandidate (repetitions prolongations : List Event)
    (median_word_dur : Rat) (events : List Event) (w : Word) : Option Event :=
  let word_dur := w.stop - w.start
  let already_flagged := events.any (fun e =>
    decide (e.word = w.word ∧ ratAbs (e.start - w.start) < (1/10 : Rat)))
  let in_repetition := repetitions.any (fun rep =>
    decide (rep.start ≤ w.start ∧ w.start ≤ rep.stop))
  let in_prolongation := prolongations.any (fun prol =>
    decide (ratAbs (prol.start - w.start) < (1/10 : Rat)))
  if already_flagged ∨ in_repetition ∨ in_prolongation then none
  else if median_word_dur * 5 < word_dur ∧ (2 : Rat) < word_dur then
    if w.start < (3/2 : Rat) then none
    else some { type := "block", word := w.word, start := w.start, stop := w.stop,
                gapDuration := some word_dur, confidence := 7/10,
                note := some "abnormally_long_word" }
  else none

/-- detect_blocks: gap analysis plus the abnormally-long-word check.
Returns no events for transcripts of fewer than 3 words. -/
def detect_blocks (words : List Word)
    (repetitions prolongations : List Event) : List Event :=
  if words.length < 3 then []
  else
    let median_word_dur := median (words.map (fun w => w.stop - w.start))
    words.foldl (fun events w =>
      match longWordCandidate repetitions prolongations median_word_dur events w with
      | some ev => events ++ [ev]
      | none => events) (gapBlockEvents words)

-- ---------- prolongation detection (detect_prolongations) ----------

/-- librosa frames_to_time with hop 256 and n_fft 1024: the time of
frame i is (256 i + 512) / sr. -/
def frameTime (sr : Rat) (i : Nat) : Rat := ((i : Rat) * 256 + 512) / sr

/-- numpy searchsorted (left) into the frame-time array of length n:
the number of frame times strictly below t. -/
def searchsorted (sr : Rat) (n : Nat) (t : Rat) : Nat :=
  (List.range n).countP (fun i => decide (frameTime sr i < t))

/-- The positive inter-word gaps used for the median gap. -/
def prolongGaps (words : List Word) : List Rat :=
  (words.zip (words.drop 1)).filterMap (fun p =>
    let gap := p.2.start - p.1.stop
    if (1/100 : Rat) < gap then some gap else none)

/-- Word duration in milliseconds. -/
def pWordDurMs (w : Word) : Rat := (w.stop - w.start) * 1000

/-- words[idx-1]; only consulted when 0 < idx. -/
def pPrevWord (words : List Word) (idx : Nat) : Word := words.getD (idx - 1) default

/-- Whether an event list already holds a prolongation anchored at the
previous word. -/
def prevProlonged (events : List Event) (prev : Word) : Bool :=
  events.any (fun e =>
    decide (e.type = "prolongation" ∧ ratAbs (e.start - prev.start) < (1/10 : Rat)))

def pSFrame (sr : Rat) (n : Nat) (w : Word) : Int := (searchsorted sr n w.start : Int)

def pEFrame (sr : Rat) (n : Nat) (w : Word) : Int :=
  min ((n : Int) - 1) (searchsorted sr n w.stop : Int)

/-- Longest contiguous voiced run inside the word frame window.  The
numpy isnan test of the source is applied to the boolean voicing flags
of librosa pyin, where it never holds, so the run is the whole window. -/
def pMaxRun (sr : Rat) (voicedFlag : List Bool) (w : Word) : Nat :=
  ((voicedFlag.drop (pSFrame sr voicedFlag.length w).toNat).take
    ((pEFrame sr voicedFlag.length w).toNat -
     (pSFrame sr voicedFlag.length w).toNat)).length

def pDurMs (sr : Rat) (voicedFlag : List Bool) (w : Word) : Rat :=
  ((pMaxRun sr voicedFlag w : Rat) * 256 / sr) * 1000

def pVoicedRatio (sr : Rat) (voicedFlag : List Bool) (w : Word) : Rat :=
  if 0 < pWordDurMs w then pDurMs sr voicedFlag w / pWordDurMs w else 0

/-- Fraction of RMS frames holding at least 30 percent of the mean. -/
def pEnergyR (rmsl : List Rat) : Rat :=
  if rmsl.length = 0 then 0
  else (rmsl.countP (fun r => decide (meanRat rmsl * (3/10 : Rat) < r)) : Rat) /
    (rmsl.length : Rat)

/-- In-word onset times: frame indices at hop 256 over sr. -/
def pOnsetTimes (sr : Rat) (frames : List Nat) : List Rat :=
  frames.map (fun f => (f : Rat) * 256 / sr)

def pGapsMs (ot : List Rat) : List Rat :=
  (ot.zip (ot.drop 1)).map (fun p => (p.2 - p.1) * 1000)

/-- The in-word repetition test of detect_prolongations. -/
def pIsRep (sr : Rat) (w : Word) (frames : List Nat) : Prop :=
  500 < pWordDurMs w ∧ 3 ≤ (pOnsetTimes sr frames).length ∧
  2 ≤ (pGapsMs (pOnsetTimes sr frames)).length ∧
  2 ≤ (pGapsMs (pOnsetTimes sr frames)).countP
    (fun g => decide ((90 : Rat) ≤ g ∧ g ≤ 240))

instance (sr : Rat) (w : Word) (frames : List Nat) :
    Decidable (pIsRep sr w frames) := by
  unfold pIsRep; infer_instance

/-- First character of the cleaned word, falling back to the raw word. -/
def pRepeatedSound (w : Word) : String :=
  match (cleanWordProlong w.word).data with
  | c :: _ => String.mk [c]
  | [] =>
    match w.word.data with
    | c :: _ => String.mk [c]
    | [] => ""

/-- The reclassified in-word repetition event. -/
def pRepEvent (sr : Rat) (w : Word) (frames : List Nat) : Event :=
  { type := "repetition", word := pRepeatedSound w,
    pattern := some (pRepeatedSound w ++ " (in " ++ String.mk [apos] ++
      w.word ++ String.mk [apos] ++ ")"),
    start := w.start, stop := w.stop,
    count := some (pOnsetTimes sr frames).length, confidence := 9/10 }

/-- The prolongation event for a qualifying word. -/
def pProlongEvent (sr : Rat) (voicedFlag : List Bool) (w : Word) : Event :=
  { type := "prolongation", word := w.word, start := w.start, stop := w.stop,
    durMs := some (pDurMs sr voicedFlag w),
    wordDurMs := some (pWordDurMs w),
    voicedRatio := some (pVoicedRatio sr voicedFlag w), confidence := 17/20 }

/-- The body of the per-word loop of detect_prolongations, as the
optional event it appends.  The chain of early continue statements
becomes a chain of if-guards returning none; the local variables of
the source are the p-prefixed definitions above. -/
def prolongCandidate (sr : Rat) (voicedFlag : List Bool)
    (wordRms : Nat → List Rat) (wordOnsetFrames : Nat → List Nat)
    (words : List Word) (median_gap median_word_dur : Rat)
    (events : List Event) (idx : Nat) (w : Word) : Option Event :=
  if pWordDurMs w < MIN_WORD_MS_FOR_PROLONG then none
  else if cleanWordProlong w.word ∈ IGNORE_SHORT_WORDS ∨
          cleanWordProlong w.word ∈ IGNORE_CONTRACTIONS then none
  else if 0 < idx ∧ prevProlonged events (pPrevWord words idx) ∧
          w.start - (pPrevWord words idx).stop < (3/10 : Rat) then none
  else if 0 < idx ∧ median_gap * 2 < w.start - (pPrevWord words idx).stop then none
  else if median_word_dur * 4 < pWordDurMs w then none
  else if pEFrame sr voicedFlag.length w - pSFrame sr voicedFlag.length w < 1 then none
  else if meanRat (wordRms idx) < (1/1000 : Rat) then none
  else if 1000 < pWordDurMs w ∧ pDurMs sr voicedFlag w < 800 ∧
          pEnergyR (wordRms idx) < (1/2 : Rat) then none
  else if 0 < idx ∧ w.start - (pPrevWord words idx).stop < (1/10 : Rat) ∧
          median_word_dur * 2 < pWordDurMs w ∧
          pVoicedRatio sr voicedFlag w < PROLONG_RATIO then none
  else if pIsRep sr w (wordOnsetFrames idx) then
    if (3/2 : Rat) ≤ w.start then some (pRepEvent sr w (wordOnsetFrames idx))
    else none
  else if (PROLONG_MS < pDurMs sr voicedFlag w ∧
           PROLONG_RATIO < pVoicedRatio sr voicedFlag w) ∨
          (1000 < pWordDurMs w ∧ (3/5 : Rat) < pEnergyR (wordRms idx) ∧
           (1/500 : Rat) < meanRat (wordRms idx)) then
    if w.start < (3/2 : Rat) then none
    else some (pProlongEvent sr voicedFlag w)
  else none

/-- The per-word loop body of detect_prolongations. -/
def prolongStep (sr : Rat) (voicedFlag : List Bool) (wordRms : Nat → List Rat)
    (wordOnsetFrames : Nat → List Nat) (words : List Word)
    (median_gap median_word_dur : Rat)
    (events : List Event) (iw : Nat × Word) : List Event :=
  match prolongCandidate sr voicedFlag wordRms wordOnsetFrames words
      median_gap median_word_dur events iw.1 iw.2 with
  | some ev => events ++ [ev]
  | none => events

/-- detect_prolongations with the pyin pitch-tracking call as an
external collaborator: on its exception the try/except of the source
catches before any event is produced, emits a warning and returns the
empty list.  The per-word RMS frames and in-word onset frames of
librosa are supplied as oracles indexed by word position; the inner
try/except around the in-word onset call maps a failure to no onsets. -/
def detect_prolongations (sr : Rat) (pyinRes : Except String (List Bool))
    (wordRms : Nat → List Rat) (wordOnsetFrames : Nat → List Nat)
    (words : List Word) : List Event × List String :=
  match pyinRes with
  | Except.error e =>
    ([], ["Warning: Prolongation detection error: " ++ e])
  | Except.ok voicedFlag =>
    let gaps := prolongGaps words
    let median_gap := if gaps.isEmpty then (1/5 : Rat) else median gaps
    let median_word_dur := median (words.map (fun w => (w.stop - w.start) * 1000))
    (words.enum.foldl
      (prolongStep sr voicedFlag wordRms wordOnsetFrames words
        median_gap median_word_dur) [], [])

-- ---------- full pipeline (detect_all) ----------

/-- Comparison used by the final sort: ascending by event start. -/
def startLE (a b : Event) : Bool := decide (a.start ≤ b.start)

/-- The concatenation of the four detector outputs in source order
(repetitions, filtered acoustic repetitions, prolongations, blocks),
before the final stable sort. -/
def candidates (words : List Word) (sr : Rat)
    (onsetRes : Except String (List Rat)) (pyinRes : Except String (List Bool))
    (wordRms : Nat → List Rat) (wordOnsetFrames : Nat → List Nat) : List Event :=
  let reps := detect_repetitions words
  let prolongs := (detect_prolongations sr pyinRes wordRms wordOnsetFrames words).1
  let acoustic_reps := (detect_acoustic_repetitions onsetRes words).1
  let filtered_acoustic_reps := acoustic_reps.filter (fun arep =>
    ! prolongs.any (fun prol =>
      decide (prol.start - (1/5 : Rat) ≤ arep.start ∧
              arep.start ≤ prol.stop + (1/5 : Rat))))
  let blocks := detect_blocks words reps prolongs
  reps ++ filtered_acoustic_reps ++ prolongs ++ blocks

/-- The pipeline result: the transcript, the merged event list and the
warnings printed by the detector fault boundaries. -/
structure DetectResult where
  words : List Word
  events : List Event
  warnings : List String
deriving DecidableEq, Repr

/-- detect_all: run the four detectors, filter acoustic candidates
overlapping prolongations, and stable-sort the union by start time. -/
def detect_all (words : List Word) (sr : Rat)
    (onsetRes : Except String (List Rat)) (pyinRes : Except String (List Bool))
    (wordRms : Nat → List Rat) (wordOnsetFrames : Nat → List Nat) : DetectResult :=
  { words := words,
    events := (candidates words sr onsetRes pyinRes wordRms wordOnsetFrames).mergeSort startLE,
    warnings := (detect_prolongations sr pyinRes wordRms wordOnsetFrames words).2 ++
      (detect_acoustic_repetitions onsetRes words).2 }

-- ---------- concrete scenario inputs used by witnesses ----------

/-- Transcript with a prolonged first word (1000 ms) and a short word. -/
def exProlongWords : List Word :=
  [{ word := "soooo", start := 2, stop := 3 },
   { word := "cat", start := 7/2, stop := 37/10 }]

def exVoiced : List Bool := List.replicate 200 true

def exRms : Nat → List Rat := fun _ => [1/100, 1/100]

def exNoOnsets : Nat → List Nat := fun _ => []

/-- Five onsets 100 ms apart: one qualifying burst cluster. -/
def exClusterTimes : List Rat := [2, 21/10, 11/5, 23/10, 12/5]

/-- The prolongation event detect_prolongations emits for exProlongWords. -/
def exProlongEvent : Event :=
  { type := "prolongation", word := "soooo", start := 2, stop := 3,
    durMs := some 1008, wordDurMs := some 1000,
    voicedRatio := some (126 / 125), confidence := 17/20 }

/-- Three-word transcript realising the gap-block scenario. -/
def exBlockWords : List Word :=
  [{ word := "oh", start := 3/10, stop := 3/5 },
   { word := "very", start := 1, stop := 13/10 },
   { word := "pretty", start := 3, stop := 17/5 }]

/-- The single block event detect_blocks emits for exBlockWords. -/
def exGapBlockEvent : Event :=
  { type := "block", word := "pretty", start := 3, stop := 17/5,
    gapDuration := some (17/10), confidence := 17/20 }

/-- Three identical short words: one lexical repetition run. -/
def exRepWords : List Word :=
  [{ word := "go", start := 2, stop := 21/10 },
   { word := "go", start := 11/5, stop := 23/10 },
   { word := "go", start := 12/5, stop := 5/2 }]

def exGoRepEvent : Event :=
  { type := "repetition", word := "go", count := some 3,
    start := 2, stop := 5/2, confidence := 19/20 }

def exGoAcousticEvent : Event :=
  { type := "acoustic_repetition", word := "g-g-... (go)",
    pattern := some "rapid_bursts", count := some 5, start := 2, stop := 12/5,
    confidence := 4/5, inferredSound := some "g", targetWord := some "go" }

/-- Transcript whose words all end before the burst cluster does. -/
def exEarlyWords : List Word :=
  [{ word := "hello", start := 1/5, stop := 1/2 },
   { word := "world", start := 3/5, stop := 9/10 }]

/-- The unnamed-sound acoustic event emitted when no word follows the
cluster within the lookahead. -/
def exUnknownSoundEvent : Event :=
  { type := "acoustic_repetition", word := "unknown sound",
    pattern := some "rapid_bursts", count := some 5, start := 2, stop := 12/5,
    confidence := 4/5 }

/-- The acoustic event emitted for a qualifying cluster when the
transcript is empty. -/
def exSoundBurstsEvent : Event :=
  { type := "acoustic_repetition", word := "sound bursts",
    pattern := some "rapid_bursts", count := some 5, start := 2, stop := 12/5,
    confidence := 4/5 }

-- ---------- shared helper lemmas ----------

/-- A fold whose step either keeps the accumulator or appends one
element preserves any predicate that the appended elements satisfy. -/
theorem foldl_append_invariant {α : Type} (P : Event → Prop)
    (step : List Event → α → List Event)
    (hstep : ∀ acc x, step acc x = acc ∨
      ∃ ev, step acc x = acc ++ [ev] ∧ P ev) :
    ∀ (l : List α) (acc : List Event), (∀ e ∈ acc, P e) →
      ∀ e ∈ l.foldl step acc, P e := by
  intro l
  induction l with
  | nil => intro acc hacc e he; exact hacc e he
  | cons x xs ih =>
    intro acc hacc e he
    refine ih (step acc x) ?_ e he
    rcases hstep acc x with h | ⟨ev, h, hev⟩
    · rw [h]; exact hacc
    · rw [h]
      intro e' he'
      rcases List.mem_append.mp he' with h1 | h1
      · exact hacc e' h1
      · simp only [List.mem_singleton] at h1
        exact h1 ▸ hev

/-- Shape of the events produced by the repetition scan. -/
theorem repsGo_spec : ∀ (fuel : Nat) (ws : List Word), ∀ e ∈ repsGo fuel ws,
    e.type = "repetition" ∧ (3/2 : Rat) ≤ e.start ∧ e.note = none := by
  intro fuel
  induction fuel with
  | zero => intro ws e he; simp [repsGo] at he
  | succ f ih =>
    intro ws e he
    match ws with
    | [] => simp [repsGo] at he
    | x :: xs =>
      simp only [repsGo] at he
      by_cases hemp : (normWord x.word).length < 1
      · rw [if_pos hemp] at he; exact ih xs e he
      rw [if_neg hemp] at he
      by_cases hcond : 3 ≤ countRun (normWord x.word) xs + 1 ∧
          (3/2 : Rat) ≤ x.start ∧
          ((normWord x.word).length = 1 →
            (normWord x.word = "i" ∨ 4 ≤ countRun (normWord x.word) xs + 1))
      · rw [if_pos hcond] at he
        rcases List.mem_cons.mp he with rfl | he
        · exact ⟨rfl, hcond.2.1, rfl⟩
        · exact ih _ e he
      · rw [if_neg hcond] at he; exact ih _ e he

theorem detect_repetitions_spec (words : List Word) :
    ∀ e ∈ detect_repetitions words,
      e.type = "repetition" ∧ (3/2 : Rat) ≤ e.start ∧ e.note = none :=
  repsGo_spec words.length words

/-- Field values common to every acoustic event constructor branch. -/
theorem acousticEventFor_fields (words : List Word) (st et : Rat) (bc : Nat) :
    (acousticEventFor words st et bc).type = "acoustic_repetition" ∧
    (acousticEventFor words st et bc).start = st ∧
    (acousticEventFor words st et bc).note = none := by
  unfold acousticEventFor
  split
  · exact ⟨rfl, rfl, rfl⟩
  · split <;> exact ⟨rfl, rfl, rfl⟩

/-- Shape of the events produced by the acoustic cluster scan. -/
theorem acousticGo_spec (words : List Word) :
    ∀ (fuel : Nat) (ts : List Rat), ∀ e ∈ acousticGo words fuel ts,
      e.type = "acoustic_repetition" ∧ (3/2 : Rat) ≤ e.start ∧ e.note = none := by
  intro fuel
  induction fuel with
  | zero => intro ts e he; simp [acousticGo] at he
  | succ f ih =>
    intro ts e he
    match ts with
    | [] => simp [acousticGo] at he
    | t :: ts =>
      simp only [acousticGo] at he
      by_cases hcond : MIN_BURSTS_FOR_STUTTER ≤ chainLen t ts + 1 ∧ (3/2 : Rat) ≤ t
      · rw [if_pos hcond] at he
        rcases List.mem_cons.mp he with rfl | he
        · obtain ⟨h1, h2, h3⟩ := acousticEventFor_fields words t
            ((ts.take (chainLen t ts)).getLastD t) (chainLen t ts + 1)
          refine ⟨h1, ?_, h3⟩
          rw [h2]
          exact hcond.2
        · exact ih _ e he
      · rw [if_neg hcond] at he; exact ih _ e he

/-- Shape of a prolongation-detector candidate: it is anchored at its
word, starts at or after 1.5 seconds, is typed repetition or
prolongation, and carries no note. -/
theorem prolongCandidate_spec (sr : Rat) (voicedFlag : List Bool)
    (wordRms : Nat → List Rat) (wordOnsetFrames : Nat → List Nat)
    (words : List Word) (mg mwd : Rat) (events : List Event)
    (idx : Nat) (w : Word) (ev : Event)
    (h : prolongCandidate sr voicedFlag wordRms wordOnsetFrames words
          mg mwd events idx w = some ev) :
    ev.start = w.start ∧ (3/2 : Rat) ≤ ev.start ∧
    (ev.type = "repetition" ∨ ev.type = "prolongation") ∧ ev.note = none := by
  unfold prolongCandidate at h
  by_cases h1 : pWordDurMs w < MIN_WORD_MS_FOR_PROLONG
  · rw [if_pos h1] at h; exact absurd h (by simp)
  rw [if_neg h1] at h
  by_cases h2 : cleanWordProlong w.word ∈ IGNORE_SHORT_WORDS ∨
      cleanWordProlong w.word ∈ IGNORE_CONTRACTIONS
  · rw [if_pos h2] at h; exact absurd h (by simp)
  rw [if_neg h2] at h
  by_cases h3 : 0 < idx ∧ prevProlonged events (pPrevWord words idx) = true ∧
      w.start - (pPrevWord words idx).stop < (3/10 : Rat)
  · rw [if_pos h3] at h; exact absurd h (by simp)
  rw [if_neg h3] at h
  by_cases h4 : 0 < idx ∧ mg * 2 < w.start - (pPrevWord words idx).stop
  · rw [if_pos h4] at h; exact absurd h (by simp)
  rw [if_neg h4] at h
  by_cases h5 : mwd * 4 < pWordDurMs w
  · rw [if_pos h5] at h; exact absurd h (by simp)
  rw [if_neg h5] at h
  by_cases h6 : pEFrame sr voicedFlag.length w - pSFrame sr voicedFlag.length w < 1
  · rw [if_pos h6] at h; exact absurd h (by simp)
  rw [if_neg h6] at h
  by_cases h7 : meanRat (wordRms idx) < (1/1000 : Rat)
  · rw [if_pos h7] at h; exact absurd h (by simp)
  rw [if_neg h7] at h
  by_cases h8 : 1000 < pWordDurMs w ∧ pDurMs sr voicedFlag w < 800 ∧
      pEnergyR (wordRms idx) < (1/2 : Rat)
  · rw [if_pos h8] at h; exact absurd h (by simp)
  rw [if_neg h8] at h
  by_cases h9 : 0 < idx ∧ w.start - (pPrevWord words idx).stop < (1/10 : Rat) ∧
      mwd * 2 < pWordDurMs w ∧ pVoicedRatio sr voicedFlag w < PROLONG_RATIO
  · rw [if_pos h9] at h; exact absurd h (by simp)
  rw [if_neg h9] at h
  by_cases h10 : pIsRep sr w (wordOnsetFrames idx)
  · rw [if_pos h10] at h
    by_cases h11 : (3/2 : Rat) ≤ w.start
    · rw [if_pos h11] at h
      simp only [Option.some.injEq] at h
      subst h
      exact ⟨rfl, h11, Or.inl rfl, rfl⟩
    · rw [if_neg h11] at h; exact absurd h (by simp)
  rw [if_neg h10] at h
  by_cases h12 : (PROLONG_MS < pDurMs sr voicedFlag w ∧
      PROLONG_RATIO < pVoicedRatio sr voicedFlag w) ∨
      (1000 < pWordDurMs w ∧ (3/5 : Rat) < pEnergyR (wordRms idx) ∧
       (1/500 : Rat) < meanRat (wordRms idx))
  · rw [if_pos h12] at h
    by_cases h13 : w.start < (3/2 : Rat)
    · rw [if_pos h13] at h; exact absurd h (by simp)
    · rw [if_neg h13] at h
      simp only [Option.some.injEq] at h
      subst h
      exact ⟨rfl, not_lt.mp h13, Or.inr rfl, rfl⟩
  · rw [if_neg h12] at h; exact absurd h (by simp)

theorem prolong_events_spec (sr : Rat) (pyinRes : Except String (List Bool))
    (wordRms : Nat → List Rat) (wordOnsetFrames : Nat → List Nat)
    (words : List Word) :
    ∀ e ∈ (detect_prolongations sr pyinRes wordRms wordOnsetFrames words).1,
      (3/2 : Rat) ≤ e.start ∧
      (e.type = "repetition" ∨ e.type = "prolongation") ∧ e.note = none := by
  match pyinRes with
  | Except.error msg => intro e he; simp [detect_prolongations] at he
  | Except.ok voicedFlag =>
    intro e he
    simp only [detect_prolongations] at he
    refine foldl_append_invariant
      (fun ev => (3/2 : Rat) ≤ ev.start ∧
        (ev.type = "repetition" ∨ ev.type = "prolongation") ∧ ev.note = none)
      _ ?_ _ _ (by intro e' he'; simp at he') e he
    intro acc x
    unfold prolongStep
    cases hc : prolongCandidate sr voicedFlag wordRms wordOnsetFrames words
        (if (prolongGaps words).isEmpty then (1/5 : Rat) else median (prolongGaps words))
        (median (words.map (fun w => (w.stop - w.start) * 1000))) acc x.1 x.2 with
    | none => exact Or.inl rfl
    | some ev =>
      right
      obtain ⟨hs, h15, hty, hn⟩ := prolongCandidate_spec _ _ _ _ _ _ _ _ _ _ _ hc
      exact ⟨ev, rfl, h15, hty, hn⟩

/-- Every collected gap lies strictly below 3 seconds. -/
theorem blockGaps_duration_lt_three (words : List Word) :
    ∀ g ∈ blockGaps words, g.duration < 3 := by
  intro g hg
  simp only [blockGaps, List.mem_filterMap] at hg
  obtain ⟨p, _, hp⟩ := hg
  split at hp
  · next hc =>
    simp only [Option.some.injEq] at hp
    subst hp
    exact hc.2.2
  · exact absurd hp (by simp)

/-- Shape of a gap-based block event: typed block, no note, starting
at or after 1.5 seconds, and recording a gap below 3 seconds. -/
theorem gapBlockEvents_spec (words : List Word) :
    ∀ e ∈ gapBlockEvents words, e.type = "block" ∧ (3/2 : Rat) ≤ e.start ∧
      e.note = none ∧ ∃ gd, e.gapDuration = some gd ∧ gd < 3 := by
  intro e he
  simp only [gapBlockEvents] at he
  split at he
  · exact absurd he (by simp)
  simp only [List.mem_filterMap] at he
  obtain ⟨g, hg, hge⟩ := he
  split at hge
  · next hthr =>
    split at hge
    · exact absurd hge (by simp)
    · next hlt =>
      simp only [Option.some.injEq] at hge
      subst hge
      exact ⟨rfl, not_lt.mp hlt, rfl, g.duration,
        rfl, blockGaps_duration_lt_three words g hg⟩
  · exact absurd hge (by simp)

/-- Shape of an abnormally-long-word candidate: it carries the note,
is anchored at its word, starts at or after 1.5 seconds, and its word
is claimed by no repetition span and no prolongation anchor. -/
theorem longWordCandidate_spec (repetitions prolongations : List Event)
    (mwd : Rat) (events : List Event) (w : Word) (ev : Event)
    (h : longWordCandidate repetitions prolongations mwd events w = some ev) :
    ev.note = some "abnormally_long_word" ∧ ev.type = "block" ∧
    ev.start = w.start ∧ (3/2 : Rat) ≤ ev.start ∧
    (∀ rep ∈ repetitions, ¬(rep.start ≤ w.start ∧ w.start ≤ rep.stop)) ∧
    (∀ prol ∈ prolongations, ¬(ratAbs (prol.start - w.start) < (1/10 : Rat))) := by
  simp only [longWordCandidate] at h
  by_cases hflag :
      (events.any fun e =>
        decide (e.word = w.word ∧ ratAbs (e.start - w.start) < (1/10 : Rat))) = true ∨
      (repetitions.any fun rep =>
        decide (rep.start ≤ w.start ∧ w.start ≤ rep.stop)) = true ∨
      (prolongations.any fun prol =>
        decide (ratAbs (prol.start - w.start) < (1/10 : Rat))) = true
  · rw [if_pos hflag] at h; exact absurd h (by simp)
  rw [if_neg hflag] at h
  by_cases hdur : mwd * 5 < w.stop - w.start ∧ (2 : Rat) < w.stop - w.start
  · rw [if_pos hdur] at h
    by_cases hlt : w.start < (3/2 : Rat)
    · rw [if_pos hlt] at h; exact absurd h (by simp)
    · rw [if_neg hlt] at h
      simp only [Option.some.injEq] at h
      subst h
      push_neg at hflag
      obtain ⟨-, hrep, hprol⟩ := hflag
      simp only [Bool.not_eq_true, List.any_eq_false, decide_eq_true_eq] at hrep hprol
      exact ⟨rfl, rfl, rfl, not_lt.mp hlt, hrep, hprol⟩
  · rw [if_neg hdur] at h; exact absurd h (by simp)

/-- Shape of every block event: typed block, starting at or after 1.5
seconds; gap-based events (no note) record a gap below 3 seconds, and
abnormally-long-word events exclude spans claimed by the repetition or
prolongation lists passed in. -/
theorem detect_blocks_spec (words : List Word)
    (repetitions prolongations : List Event) :
    ∀ e ∈ detect_blocks words repetitions prolongations,
      e.type = "block" ∧ (3/2 : Rat) ≤ e.start ∧
      (e.note = none → ∃ gd, e.gapDuration = some gd ∧ gd < 3) ∧
      (e.note = some "abnormally_long_word" →
        (∀ rep ∈ repetitions, ¬(rep.start ≤ e.start ∧ e.start ≤ rep.stop)) ∧
        (∀ prol ∈ prolongations, ¬(ratAbs (prol.start - e.start) < (1/10 : Rat)))) := by
  intro e he
  rw [detect_blocks] at he
  split at he
  · exact absurd he (by simp)
  simp only [] at he
  refine foldl_append_invariant (fun ev => ev.type = "block" ∧ (3/2 : Rat) ≤ ev.start ∧
      (ev.note = none → ∃ gd, ev.gapDuration = some gd ∧ gd < 3) ∧
      (ev.note = some "abnormally_long_word" →
        (∀ rep ∈ repetitions, ¬(rep.start ≤ ev.start ∧ ev.start ≤ rep.stop)) ∧
        (∀ prol ∈ prolongations, ¬(ratAbs (prol.start - ev.start) < (1/10 : Rat)))))
    _ ?_ words (gapBlockEvents words) ?_ e he
  · intro acc x
    cases hc : longWordCandidate repetitions prolongations
        (median (words.map fun w => w.stop - w.start)) acc x with
    | none => exact Or.inl (by simp only [hc])
    | some ev =>
      right
      obtain ⟨hn, hty, hs, h15, hrep, hprol⟩ :=
        longWordCandidate_spec _ _ _ _ _ _ hc
      refine ⟨ev, by simp only [hc], hty, h15, ?_, ?_⟩
      · intro hnone; rw [hn] at hnone; exact absurd hnone (by simp)
      · intro _
        rw [hs]
        exact ⟨hrep, hprol⟩
  · intro e' he'
    obtain ⟨hty, h15, hnone, hgd⟩ := gapBlockEvents_spec words e' he'
    refine ⟨hty, h15, fun _ => hgd, ?_⟩
    intro hsome
    rw [hnone] at hsome
    exact absurd hsome (by simp)

/-- Shape of the acoustic detector output, through its fault boundary. -/
theorem acoustic_events_spec (onsetRes : Except String (List Rat))
    (words : List Word) :
    ∀ e ∈ (detect_acoustic_repetitions onsetRes words).1,
      e.type = "acoustic_repetition" ∧ (3/2 : Rat) ≤ e.start ∧ e.note = none := by
  match onsetRes with
  | Except.error msg => intro e he; simp [detect_acoustic_repetitions] at he
  | Except.ok ts =>
    intro e he
    rw [detect_acoustic_repetitions] at he
    split at he
    · exact absurd he (by simp)
    · exact acousticGo_spec words ts.length ts e he

/-- Any event of the pre-sort candidate list comes from one of the four
detectors, with acoustic candidates surviving the overlap filter. -/
theorem candidates_cases (words : List Word) (sr : Rat)
    (onsetRes : Except String (List Rat)) (pyinRes : Except String (List Bool))
    (wordRms : Nat → List Rat) (wordOnsetFrames : Nat → List Nat) (e : Event)
    (he : e ∈ candidates words sr onsetRes pyinRes wordRms wordOnsetFrames) :
    e ∈ detect_repetitions words ∨
    e ∈ (detect_acoustic_repetitions onsetRes words).1 ∨
    e ∈ (detect_prolongations sr pyinRes wordRms wordOnsetFrames words).1 ∨
    e ∈ detect_blocks words (detect_repetitions words)
      (detect_prolongations sr pyinRes wordRms wordOnsetFrames words).1 := by
  simp only [candidates, List.mem_append] at he
  rcases he with ((h | h) | h) | h
  · exact Or.inl h
  · exact Or.inr (Or.inl (List.mem_filter.mp h).1)
  · exact Or.inr (Or.inr (Or.inl h))
  · exact Or.inr (Or.inr (Or.inr h))

/-- C3: every event of the merged output starts at or after 1.5 s. -/
theorem detect_all_events_start_ge_threshold (words : List Word) (sr : Rat)
    (onsetRes : Except String (List Rat)) (pyinRes : Except String (List Bool))
    (wordRms : Nat → List Rat) (wordOnsetFrames : Nat → List Nat) (e : Event)
    (he : e ∈ (detect_all words sr onsetRes pyinRes wordRms wordOnsetFrames).events) :
    (3/2 : Rat) ≤ e.start := by
  simp only [detect_all, List.mem_mergeSort] at he
  rcases candidates_cases words sr onsetRes pyinRes wordRms wordOnsetFrames e he with
    h | h | h | h
  · exact (detect_repetitions_spec words e h).2.1
  · exact (acoustic_events_spec onsetRes words e h).2.1
  · exact (prolong_events_spec sr pyinRes wordRms wordOnsetFrames words e h).1
  · exact (detect_blocks_spec words _ _ e h).2.1

set_option maxRecDepth 4000 in
/-- C3 witness: the sample prolongation event is in the merged output
of the sample run and starts at 2 s, at or after the 1.5 s floor. -/
theorem detect_all_events_start_ge_threshold_witness :
    exProlongEvent ∈ (detect_all exProlongWords 16000 (Except.ok exClusterTimes)
      (Except.ok exVoiced) exRms exNoOnsets).events ∧
    (3/2 : Rat) ≤ exProlongEvent.start := by
  have hmem : exProlongEvent ∈ (detect_all exProlongWords 16000
      (Except.ok exClusterTimes) (Except.ok exVoiced) exRms exNoOnsets).events :=
    List.mem_mergeSort.mpr (by decide)
  exact ⟨hmem, detect_all_events_start_ge_threshold exProlongWords 16000
    (Except.ok exClusterTimes) (Except.ok exVoiced) exRms exNoOnsets
    exProlongEvent hmem⟩

/-- C1 counterexample: on the exact two-word transcript of the claim
(very 1.0-1.3, pretty 3.0-3.4, gap 1.7 s) the block detector returns
no events at all, because it requires at least 3 words. -/
theorem detect_blocks_two_words_no_event :
    detect_blocks [{ word := "very", start := 1, stop := 13/10 },
      { word := "pretty", start := 3, stop := 17/5 }] [] [] = [] := by decide

/-- C1 (amended): the block detector returns no events for transcripts
of fewer than 3 words; when a third word precedes the pair so that the
transcript has 3 words and 2 collected gaps, the 1.7 s gap produces
exactly one Block event anchored at the word pretty, with the gap
duration recorded. -/
theorem gap_block_three_words_anchored_at_pretty :
    (∀ (w1 w2 : Word) (reps prolongs : List Event),
      detect_blocks [w1, w2] reps prolongs = []) ∧
    detect_blocks exBlockWords [] [] = [exGapBlockEvent] :=
  ⟨fun _ _ _ _ => by rfl, by decide⟩

/-- C10: every gap-based block event (no note field) records a gap
duration strictly below 3 seconds; a consecutive pair separated by
3 s or more is excluded from gap analysis and yields no event. -/
theorem gap_block_duration_lt_three (words : List Word)
    (repetitions prolongations : List Event) (e : Event)
    (he : e ∈ detect_blocks words repetitions prolongations)
    (hnote : e.note = none) :
    ∃ gd, e.gapDuration = some gd ∧ gd < 3 :=
  (detect_blocks_spec words repetitions prolongations e he).2.2.1 hnote

/-- C10 witness: the concrete gap block of the three-word scenario
records the 1.7 s gap, below 3 s. -/
theorem gap_block_duration_lt_three_witness :
    exGapBlockEvent ∈ detect_blocks exBlockWords [] [] ∧
    exGapBlockEvent.note = none ∧
    ∃ gd, exGapBlockEvent.gapDuration = some gd ∧ gd < 3 :=
  ⟨by decide, rfl,
    gap_block_duration_lt_three exBlockWords [] [] exGapBlockEvent (by decide) rfl⟩

/-- C4: an acoustic-repetition candidate whose start lies within
[p.start - 0.2, p.stop + 0.2] for some prolongation p detected in the
same run is absent from the merged output. -/
theorem acoustic_overlapping_prolongation_absent (words : List Word) (sr : Rat)
    (onsetRes : Except String (List Rat)) (pyinRes : Except String (List Bool))
    (wordRms : Nat → List Rat) (wordOnsetFrames : Nat → List Nat) (a : Event)
    (ha : a ∈ (detect_acoustic_repetitions onsetRes words).1)
    (hov : ∃ p ∈ (detect_prolongations sr pyinRes wordRms wordOnsetFrames words).1,
      p.type = "prolongation" ∧ p.start - 1/5 ≤ a.start ∧ a.start ≤ p.stop + 1/5) :
    a ∉ (detect_all words sr onsetRes pyinRes wordRms wordOnsetFrames).events := by
  intro hmem
  obtain ⟨hty, -, -⟩ := acoustic_events_spec onsetRes words a ha
  simp only [detect_all, List.mem_mergeSort] at hmem
  simp only [candidates, List.mem_append] at hmem
  rcases hmem with ((h | h) | h) | h
  · have hre := (detect_repetitions_spec words a h).1
    rw [hty] at hre
    exact absurd hre (by decide)
  · obtain ⟨p, hp, hpt, h1, h2⟩ := hov
    have hfil := (List.mem_filter.mp h).2
    simp only [Bool.not_eq_true', List.any_eq_false, decide_eq_true_eq] at hfil
    exact hfil p hp ⟨h1, h2⟩
  · rcases (prolong_events_spec sr pyinRes wordRms wordOnsetFrames words a h).2.1 with
      ht | ht <;> rw [hty] at ht <;> exact absurd ht (by decide)
  · have hbl := (detect_blocks_spec words _ _ a h).1
    rw [hty] at hbl
    exact absurd hbl (by decide)

set_option maxRecDepth 8000 in
/-- C4 witness: in the sample run the burst cluster at 2.0-2.4 s lies
inside the prolongation span 2.0-3.0 s widened by 0.2 s, and the
candidate indeed does not appear in the merged output. -/
theorem acoustic_overlapping_prolongation_absent_witness :
    exUnknownSoundEvent ∈
      (detect_acoustic_repetitions (Except.ok exClusterTimes) exProlongWords).1 ∧
    (∃ p ∈ (detect_prolongations 16000 (Except.ok exVoiced) exRms exNoOnsets
        exProlongWords).1,
      p.type = "prolongation" ∧ p.start - 1/5 ≤ exUnknownSoundEvent.start ∧
      exUnknownSoundEvent.start ≤ p.stop + 1/5) ∧
    exUnknownSoundEvent ∉ (detect_all exProlongWords 16000
      (Except.ok exClusterTimes) (Except.ok exVoiced) exRms exNoOnsets).events :=
  ⟨by decide, by decide,
    acoustic_overlapping_prolongation_absent exProlongWords 16000
      (Except.ok exClusterTimes) (Except.ok exVoiced) exRms exNoOnsets
      exUnknownSoundEvent (by decide) (by decide)⟩

/-- C6: a word whose span is claimed by a lexical repetition event, or
anchored by a prolongation event of the same run, yields no
abnormally-long-word block event in the merged output. -/
theorem no_long_word_block_on_claimed_span (words : List Word) (sr : Rat)
    (onsetRes : Except String (List Rat)) (pyinRes : Except String (List Bool))
    (wordRms : Nat → List Rat) (wordOnsetFrames : Nat → List Nat) (w : Word)
    (hw : w ∈ words)
    (hclaim : (∃ r ∈ detect_repetitions words, r.start ≤ w.start ∧ w.start ≤ r.stop) ∨
      (∃ p ∈ (detect_prolongations sr pyinRes wordRms wordOnsetFrames words).1,
        p.type = "prolongation" ∧ p.start = w.start))
    (e : Event)
    (he : e ∈ (detect_all words sr onsetRes pyinRes wordRms wordOnsetFrames).events) :
    ¬(e.note = some "abnormally_long_word" ∧ e.start = w.start) := by
  rintro ⟨hnote, hstart⟩
  simp only [detect_all, List.mem_mergeSort] at he
  rcases candidates_cases words sr onsetRes pyinRes wordRms wordOnsetFrames e he with
    h | h | h | h
  · have hn := (detect_repetitions_spec words e h).2.2
    rw [hn] at hnote
    exact absurd hnote (by simp)
  · have hn := (acoustic_events_spec onsetRes words e h).2.2
    rw [hn] at hnote
    exact absurd hnote (by simp)
  · have hn := (prolong_events_spec sr pyinRes wordRms wordOnsetFrames words e h).2.2
    rw [hn] at hnote
    exact absurd hnote (by simp)
  · have hspec := (detect_blocks_spec words _ _ e h).2.2.2 hnote
    rcases hclaim with ⟨r, hr, hr1, hr2⟩ | ⟨p, hp, hpt, hps⟩
    · refine hspec.1 r hr ?_
      rw [hstart]
      exact ⟨hr1, hr2⟩
    · refine hspec.2 p hp ?_
      rw [hstart, hps, sub_self]
      simp [ratAbs]

set_option maxRecDepth 8000 in
/-- C6 witness: in the sample run the word soooo is claimed by the
prolongation event, that event is in the merged output, and it is not
an abnormally-long-word block anchored there. -/
theorem no_long_word_block_on_claimed_span_witness :
    ({ word := "soooo", start := 2, stop := 3 } : Word) ∈ exProlongWords ∧
    (∃ p ∈ (detect_prolongations 16000 (Except.ok exVoiced) exRms exNoOnsets
        exProlongWords).1,
      p.type = "prolongation" ∧
      p.start = ({ word := "soooo", start := 2, stop := 3 } : Word).start) ∧
    exProlongEvent ∈ (detect_all exProlongWords 16000 (Except.ok exClusterTimes)
      (Except.ok exVoiced) exRms exNoOnsets).events ∧
    ¬(exProlongEvent.note = some "abnormally_long_word" ∧
      exProlongEvent.start = ({ word := "soooo", start := 2, stop := 3 } : Word).start) := by
  have hmem : exProlongEvent ∈ (detect_all exProlongWords 16000
      (Except.ok exClusterTimes) (Except.ok exVoiced) exRms exNoOnsets).events :=
    List.mem_mergeSort.mpr (by decide)
  exact ⟨by decide, by decide, hmem,
    no_long_word_block_on_claimed_span exProlongWords 16000
      (Except.ok exClusterTimes) (Except.ok exVoiced) exRms exNoOnsets
      { word := "soooo", start := 2, stop := 3 } (by decide)
      (Or.inr (by decide)) exProlongEvent hmem⟩

theorem startLE_trans : ∀ a b c : Event, startLE a b → startLE b c → startLE a c := by
  intro a b c h1 h2
  simp only [startLE, decide_eq_true_eq] at h1 h2 ⊢
  exact le_trans h1 h2

theorem startLE_total : ∀ a b : Event, startLE a b || startLE b a := by
  intro a b
  simp only [startLE, Bool.or_eq_true, decide_eq_true_eq]
  exact le_total a.start b.start

/-- C5: the merged output is non-decreasing in start, and any two
candidates in detector priority order (the pre-sort concatenation
repetitions, acoustic, prolongations, blocks) with equal start times
keep that relative order in the output: the sort is stable. -/
theorem detect_all_sorted_and_stable (words : List Word) (sr : Rat)
    (onsetRes : Except String (List Rat)) (pyinRes : Except String (List Bool))
    (wordRms : Nat → List Rat) (wordOnsetFrames : Nat → List Nat) :
    ((detect_all words sr onsetRes pyinRes wordRms wordOnsetFrames).events.Pairwise
      (fun a b : Event => a.start ≤ b.start)) ∧
    (∀ a b : Event, a.start = b.start →
      List.Sublist [a, b]
        (candidates words sr onsetRes pyinRes wordRms wordOnsetFrames) →
      List.Sublist [a, b]
        (detect_all words sr onsetRes pyinRes wordRms wordOnsetFrames).events) := by
  constructor
  · have hs := @List.sorted_mergeSort Event startLE startLE_trans startLE_total
      (candidates words sr onsetRes pyinRes wordRms wordOnsetFrames)
    exact hs.imp (fun h => by simpa [startLE, decide_eq_true_eq] using h)
  · intro a b hab hsub
    exact List.pair_sublist_mergeSort startLE_trans startLE_total
      (by simp [startLE, hab.le]) hsub

set_option maxRecDepth 8000 in
/-- C5 witness: in a run where the lexical repetition and the burst
cluster both start at 2 s, the two events appear in priority order in
the sorted output. -/
theorem detect_all_sorted_and_stable_witness :
    exGoRepEvent.start = exGoAcousticEvent.start ∧
    List.Sublist [exGoRepEvent, exGoAcousticEvent]
      (candidates exRepWords 16000 (Except.ok exClusterTimes) (Except.ok exVoiced)
        exRms exNoOnsets) ∧
    List.Sublist [exGoRepEvent, exGoAcousticEvent]
      (detect_all exRepWords 16000 (Except.ok exClusterTimes) (Except.ok exVoiced)
        exRms exNoOnsets).events :=
  ⟨by decide, by decide,
    (detect_all_sorted_and_stable exRepWords 16000 (Except.ok exClusterTimes)
      (Except.ok exVoiced) exRms exNoOnsets).2 exGoRepEvent exGoAcousticEvent
      (by decide) (by decide)⟩

/-- C7: each acoustic detector is isolated behind a fault boundary:
when its top-level signal-processing call (onset detection for the
burst detector, pyin pitch tracking for the prolongation detector)
raises, that detector contributes an empty event list and a warning,
and the remaining detectors still run and contribute their events. -/
theorem detector_fault_isolation (words : List Word) (sr : Rat)
    (msgA msgP : String) (onsetOk : List Rat) (pyinOk : List Bool)
    (wordRms : Nat → List Rat) (wordOnsetFrames : Nat → List Nat) :
    (detect_acoustic_repetitions (Except.error msgA) words).1 = [] ∧
    (detect_acoustic_repetitions (Except.error msgA) words).2 =
      ["Warning: Acoustic repetition detection error: " ++ msgA] ∧
    (detect_prolongations sr (Except.error msgP) wordRms wordOnsetFrames words).1 = [] ∧
    (detect_prolongations sr (Except.error msgP) wordRms wordOnsetFrames words).2 =
      ["Warning: Prolongation detection error: " ++ msgP] ∧
    (detect_all words sr (Except.error msgA) (Except.ok pyinOk)
        wordRms wordOnsetFrames).events =
      (detect_repetitions words ++
       (detect_prolongations sr (Except.ok pyinOk) wordRms wordOnsetFrames words).1 ++
       detect_blocks words (detect_repetitions words)
         (detect_prolongations sr (Except.ok pyinOk) wordRms wordOnsetFrames words).1).mergeSort
        startLE ∧
    (detect_all words sr (Except.ok onsetOk) (Except.error msgP)
        wordRms wordOnsetFrames).events =
      (detect_repetitions words ++
       (detect_acoustic_repetitions (Except.ok onsetOk) words).1 ++
       detect_blocks words (detect_repetitions words) []).mergeSort startLE ∧
    (detect_all words sr (Except.error msgA) (Except.error msgP)
        wordRms wordOnsetFrames).warnings =
      ["Warning: Prolongation detection error: " ++ msgP,
       "Warning: Acoustic repetition detection error: " ++ msgA] := by
  refine ⟨rfl, rfl, rfl, rfl, ?_, ?_, rfl⟩
  · simp [detect_all, candidates, detect_acoustic_repetitions]
  · simp [detect_all, candidates, detect_prolongations, List.filter_true]

theorem string_ne_empty_one_le_length {w : String} (hw : w ≠ "") : 1 ≤ w.length := by
  cases w with
  | mk data =>
    cases data with
    | nil => exact absurd rfl hw
    | cons c cs => simp [String.length]

theorem countRun_le_length (w : String) : ∀ xs : List Word, countRun w xs ≤ xs.length := by
  intro xs
  induction xs with
  | nil => simp [countRun]
  | cons x xs ih =>
    simp only [countRun, List.length_cons]
    split
    · omega
    · omega

/-- The inner while loop consumes exactly a block of matching words
followed by a non-matching (or absent) word. -/
theorem countRun_append (w : String) (run post : List Word)
    (hall : ∀ x ∈ run, normWord x.word = w)
    (hpost : ∀ y ∈ post.head?, normWord y.word ≠ w) :
    countRun w (run ++ post) = run.length := by
  induction run with
  | nil =>
    simp only [List.nil_append, List.length_nil]
    cases post with
    | nil => simp [countRun]
    | cons y ys =>
      have hy := hpost y (by simp)
      simp [countRun, hy]
  | cons r rs ih =>
    have hr := hall r (by simp)
    simp only [List.cons_append, countRun, List.append_eq, List.length_cons]
    rw [if_pos hr, ih (fun x hx => hall x (by simp [hx]))]
    omega

/-- Bound on the run consumed ahead of a maximal run: the scan cannot
eat into a maximal run from the left. -/
theorem countRun_bound (w wp : String) (run post : List Word)
    (hne : run ≠ []) (hall : ∀ x ∈ run, normWord x.word = w) :
    ∀ pre2 : List Word,
      (∀ q ∈ pre2.getLast?, normWord q.word ≠ w) →
      (pre2 = [] → wp ≠ w) →
      countRun wp (pre2 ++ run ++ post) ≤ pre2.length := by
  intro pre2
  induction pre2 with
  | nil =>
    intro _ hfirst
    match run, hne with
    | r :: rs, _ =>
      have hr := hall r (by simp)
      have : ¬ normWord r.word = wp := by
        rw [hr]
        exact fun h => (hfirst rfl) h.symm
      simp [countRun, this]
  | cons a pre3 ih =>
    intro hlast _
    simp only [List.cons_append, countRun, List.append_eq, List.length_cons]
    split
    · next ha =>
      have h3 : countRun wp (pre3 ++ run ++ post) ≤ pre3.length := by
        refine ih ?_ ?_
        · intro q hq
          apply hlast
          cases pre3 with
          | nil => simp at hq
          | cons b pre4 => rw [List.getLast?_cons_cons]; exact hq
        · intro h0 hwpw
          subst h0
          exact hlast a (by simp) (ha.trans hwpw)
      omega
    · omega

/-- The repetition scan is the per-run event map over the run
decomposition. -/
theorem repsGo_eq_filterMap :
    ∀ (fuel : Nat) (ws : List Word), ws.length ≤ fuel →
      repsGo fuel ws = (runsGo fuel ws).filterMap eventOfRun := by
  intro fuel
  induction fuel with
  | zero => intro ws _; simp [repsGo, runsGo]
  | succ f ih =>
    intro ws hlen
    match ws with
    | [] => simp [repsGo, runsGo]
    | x :: xs =>
      simp only [repsGo, runsGo]
      have hxs : xs.length ≤ f := by
        simp only [List.length_cons] at hlen
        omega
      by_cases hemp : (normWord x.word).length < 1
      · rw [if_pos hemp, if_pos hemp]
        have h1 : eventOfRun [x] = none := by
          simp only [eventOfRun]
          rw [if_pos hemp]
        rw [List.filterMap_cons_none h1]
        exact ih xs hxs
      · rw [if_neg hemp, if_neg hemp]
        have hk := countRun_le_length (normWord x.word) xs
        have htk : (xs.take (countRun (normWord x.word) xs)).length =
            countRun (normWord x.word) xs := by
          rw [List.length_take]
          omega
        have hdk : (xs.drop (countRun (normWord x.word) xs)).length ≤ f := by
          rw [List.length_drop]
          omega
        have hev : eventOfRun (x :: xs.take (countRun (normWord x.word) xs)) =
            (if 3 ≤ countRun (normWord x.word) xs + 1 ∧ (3/2 : Rat) ≤ x.start ∧
                ((normWord x.word).length = 1 →
                  (normWord x.word = "i" ∨ 4 ≤ countRun (normWord x.word) xs + 1)) then
              some { type := "repetition", word := normWord x.word,
                     count := some (countRun (normWord x.word) xs + 1),
                     start := x.start,
                     stop := ((xs.take (countRun (normWord x.word) xs)).getLastD x).stop,
                     confidence := 19/20 }
            else none) := by
          simp only [eventOfRun, htk]
          rw [if_neg hemp]
        by_cases hcond : 3 ≤ countRun (normWord x.word) xs + 1 ∧
            (3/2 : Rat) ≤ x.start ∧
            ((normWord x.word).length = 1 →
              (normWord x.word = "i" ∨ 4 ≤ countRun (normWord x.word) xs + 1))
        · rw [if_pos hcond,
            List.filterMap_cons_some (by rw [hev, if_pos hcond])]
          rw [ih _ hdk]
        · rw [if_neg hcond,
            List.filterMap_cons_none (by rw [hev, if_neg hcond])]
          exact ih _ hdk

/-- A maximal run of identically normalised words is one of the runs
the scan produces. -/
theorem maximal_run_mem_runsGo :
    ∀ (fuel : Nat) (pre run post : List Word) (w : String),
      (pre ++ run ++ post).length ≤ fuel → run ≠ [] →
      (∀ x ∈ run, normWord x.word = w) → w ≠ "" →
      (∀ p ∈ pre.getLast?, normWord p.word ≠ w) →
      (∀ y ∈ post.head?, normWord y.word ≠ w) →
      run ∈ runsGo fuel (pre ++ run ++ post) := by
  intro fuel
  induction fuel with
  | zero =>
    intro pre run post w hlen hne hall hw hpre hpost
    match run, hne with
    | r :: rs, _ => simp at hlen
  | succ f ih =>
    intro pre run post w hlen hne hall hw hpre hpost
    match pre with
    | [] =>
      match run, hne with
      | r :: rs, _ =>
        have hr : normWord r.word = w := hall r (by simp)
        have hwlen : ¬ (normWord r.word).length < 1 := by
          rw [hr]
          have := string_ne_empty_one_le_length hw
          omega
        simp only [List.nil_append, List.cons_append, runsGo, List.append_eq]
        rw [if_neg hwlen]
        have hcount : countRun (normWord r.word) (rs ++ post) = rs.length := by
          rw [hr]
          exact countRun_append w rs post (fun x hx => hall x (by simp [hx])) hpost
        rw [hcount, List.take_left' rfl]
        exact List.mem_cons_self _ _
    | p :: pre2 =>
      have hlen2 : (pre2 ++ run ++ post).length ≤ f := by
        simp only [List.cons_append, List.length_cons, List.length_append] at hlen ⊢
        omega
      by_cases hpemp : (normWord p.word).length < 1
      · simp only [List.cons_append, runsGo, List.append_eq]
        rw [if_pos hpemp]
        refine List.mem_cons_of_mem _ (ih pre2 run post w hlen2 hne hall hw ?_ hpost)
        intro q hq
        apply hpre
        cases pre2 with
        | nil => simp at hq
        | cons b pre3 =>
          rw [List.getLast?_cons_cons]
          exact hq
      · simp only [List.cons_append, runsGo, List.append_eq]
        rw [if_neg hpemp]
        have hkle : countRun (normWord p.word) (pre2 ++ run ++ post) ≤ pre2.length := by
          refine countRun_bound w (normWord p.word) run post hne hall pre2 ?_ ?_
          · intro q hq
            apply hpre
            cases pre2 with
            | nil => simp at hq
            | cons b pre3 =>
              rw [List.getLast?_cons_cons]
              exact hq
          · intro h0 hweq
            subst h0
            exact hpre p (by simp) hweq
        refine List.mem_cons_of_mem _ ?_
        have hdrop : (pre2 ++ run ++ post).drop (countRun (normWord p.word) (pre2 ++ run ++ post)) =
            pre2.drop (countRun (normWord p.word) (pre2 ++ run ++ post)) ++ run ++ post := by
          rw [List.append_assoc, List.drop_append_eq_append_drop,
            Nat.sub_eq_zero_of_le (by rw [← List.append_assoc]; exact hkle),
            List.drop_zero, ← List.append_assoc, ← List.append_assoc]
        rw [hdrop]
        refine ih _ run post w ?_ hne hall hw ?_ hpost
        · simp only [List.length_append, List.length_drop] at hlen2 ⊢
          omega
        · intro q hq
          have hne2 : pre2.drop (countRun (normWord p.word) (pre2 ++ run ++ post)) ≠ [] := by
            intro h0
            rw [h0] at hq
            simp at hq
          have hql : pre2.getLast? = some q := by
            conv_lhs => rw [← List.take_append_drop
              (countRun (normWord p.word) (pre2 ++ run ++ post)) pre2]
            rw [List.getLast?_append]
            have : (pre2.drop (countRun (normWord p.word) (pre2 ++ run ++ post))).getLast? =
                some q := hq
            rw [this]
            rfl
          apply hpre
          cases pre2 with
          | nil => simp at hql
          | cons b pre3 =>
            rw [List.getLast?_cons_cons, hql]
            rfl

/-- C2: the repetition detector emits exactly one event per qualifying
maximal run: the output is the per-run event map over the run
decomposition, every maximal run of a non-empty normalised form is in
that decomposition, and a run yields its event (spanning first start
to last end, with repeatCount the run length and confidence 0.95)
precisely when the run has at least 3 occurrences (4 for a
single-character token other than i) and starts at or after 1.5 s. -/
theorem detect_repetitions_run_characterization
    (ws pre run post : List Word) (w : String)
    (hws : ws = pre ++ run ++ post) (hne : run ≠ [])
    (hall : ∀ x ∈ run, normWord x.word = w) (hw : w ≠ "")
    (hpre : ∀ p ∈ pre.getLast?, normWord p.word ≠ w)
    (hpost : ∀ y ∈ post.head?, normWord y.word ≠ w) :
    run ∈ wordRuns ws ∧
    detect_repetitions ws = (wordRuns ws).filterMap eventOfRun ∧
    eventOfRun run =
      (if 3 ≤ run.length ∧ (3/2 : Rat) ≤ (run.headD default).start ∧
          (w.length = 1 → (w = "i" ∨ 4 ≤ run.length)) then
        some { type := "repetition", word := w, count := some run.length,
               start := (run.headD default).start,
               stop := (run.getLastD default).stop, confidence := 19/20 }
      else none) := by
  subst hws
  refine ⟨maximal_run_mem_runsGo _ pre run post w (le_refl _) hne hall hw hpre hpost,
    repsGo_eq_filterMap _ _ (le_refl _), ?_⟩
  match run, hne with
  | x :: rest, _ =>
    have hx : normWord x.word = w := hall x (by simp)
    have hwlen : ¬ w.length < 1 := by
      have := string_ne_empty_one_le_length hw
      omega
    simp only [eventOfRun, hx, List.length_cons, List.headD_cons, List.getLastD_cons]
    rw [if_neg hwlen]

/-- C2 witness: the three-fold go run is a run of the sample
transcript, the detector output is the run map, and the run yields
exactly the repetition event with count 3 and confidence 0.95. -/
theorem detect_repetitions_run_characterization_witness :
    exRepWords ∈ wordRuns exRepWords ∧
    detect_repetitions exRepWords = (wordRuns exRepWords).filterMap eventOfRun ∧
    eventOfRun exRepWords = some exGoRepEvent := by
  obtain ⟨h1, h2, h3⟩ := detect_repetitions_run_characterization exRepWords []
    exRepWords [] "go" (by simp) (by decide) (by decide) (by decide)
    (by simp) (by simp)
  refine ⟨h1, h2, ?_⟩
  rw [h3]
  decide

/-- An acoustic event with no inferred sound, built over a non-empty
transcript, is labelled unknown sound. -/
theorem acousticEventFor_unknown (words : List Word) (st et : Rat) (bc : Nat)
    (hwords : words ≠ [])
    (hn : (acousticEventFor words st et bc).inferredSound = none) :
    (acousticEventFor words st et bc).word = "unknown sound" := by
  cases hie : words.isEmpty with
  | true => exact absurd (List.isEmpty_iff.mp hie) hwords
  | false =>
    unfold acousticEventFor at hn ⊢
    rw [if_neg (by simp [hie])] at hn ⊢
    cases hf : findNextWord et words with
    | some nw =>
      simp only [hf] at hn
      simp at hn
    | none => simp only [hf]

theorem acousticGo_unknown (words : List Word) (hwords : words ≠ []) :
    ∀ (fuel : Nat) (ts : List Rat), ∀ e ∈ acousticGo words fuel ts,
      e.inferredSound = none → e.word = "unknown sound" := by
  intro fuel
  induction fuel with
  | zero => intro ts e he; simp [acousticGo] at he
  | succ f ih =>
    intro ts e he hn
    match ts with
    | [] => simp [acousticGo] at he
    | t :: ts =>
      simp only [acousticGo] at he
      by_cases hcond : MIN_BURSTS_FOR_STUTTER ≤ chainLen t ts + 1 ∧ (3/2 : Rat) ≤ t
      · rw [if_pos hcond] at he
        rcases List.mem_cons.mp he with rfl | he
        · exact acousticEventFor_unknown words t ((ts.take (chainLen t ts)).getLastD t)
            (chainLen t ts + 1) hwords hn
        · exact ih _ e he hn
      · rw [if_neg hcond] at he
        exact ih _ e he hn

/-- C8 counterexample: the run with five onsets at 2.0..2.4 s over a
transcript whose words all end long before the cluster produces, in
the final merged output, an acoustic-repetition event with no
inferred sound, labelled unknown sound - the candidate is not
dropped. -/
theorem acoustic_unknown_sound_emitted :
    (detect_all exEarlyWords 16000 (Except.ok exClusterTimes) (Except.ok exVoiced)
      exRms exNoOnsets).events = [exUnknownSoundEvent] ∧
    exUnknownSoundEvent.type = "acoustic_repetition" ∧
    exUnknownSoundEvent.inferredSound = none ∧
    exUnknownSoundEvent.word = "unknown sound" := by
  refine ⟨?_, rfl, rfl, rfl⟩
  have hc : candidates exEarlyWords 16000 (Except.ok exClusterTimes)
      (Except.ok exVoiced) exRms exNoOnsets = [exUnknownSoundEvent] := by decide
  show (candidates exEarlyWords 16000 (Except.ok exClusterTimes)
      (Except.ok exVoiced) exRms exNoOnsets).mergeSort startLE = [exUnknownSoundEvent]
  rw [hc]
  simp

/-- C8 (amended): a qualifying burst cluster with no transcript word
inside the 0.5 s lookahead is not dropped: over a non-empty
transcript, every emitted acoustic event without an inferred sound
carries the word label unknown sound (the event is kept, only the
sound naming is omitted). -/
theorem acoustic_no_next_word_labeled_unknown
    (onsetRes : Except String (List Rat)) (words : List Word)
    (hwords : words ≠ []) (e : Event)
    (he : e ∈ (detect_acoustic_repetitions onsetRes words).1)
    (hn : e.inferredSound = none) : e.word = "unknown sound" := by
  match onsetRes with
  | Except.error msg => simp [detect_acoustic_repetitions] at he
  | Except.ok ts =>
    rw [detect_acoustic_repetitions] at he
    split at he
    · exact absurd he (by simp)
    · exact acousticGo_unknown words hwords ts.length ts e he hn

/-- C8 amended witness: the unknown-sound event of the sample run. -/
theorem acoustic_no_next_word_labeled_unknown_witness :
    exEarlyWords ≠ [] ∧
    exUnknownSoundEvent ∈
      (detect_acoustic_repetitions (Except.ok exClusterTimes) exEarlyWords).1 ∧
    exUnknownSoundEvent.inferredSound = none ∧
    exUnknownSoundEvent.word = "unknown sound" :=
  ⟨by decide, by decide, rfl,
    acoustic_no_next_word_labeled_unknown (Except.ok exClusterTimes) exEarlyWords
      (by decide) exUnknownSoundEvent (by decide) rfl⟩

/-- C9 counterexample: on an empty transcript (fewer than 2 words) the
pipeline does not short-circuit: the detectors run and the merged
output still contains an acoustic event, so the event list is not
empty. -/
theorem pipeline_no_short_circuit_counterexample :
    (detect_all [] 16000 (Except.ok exClusterTimes) (Except.ok [])
      (fun _ => []) (fun _ => [])).events = [exSoundBurstsEvent] ∧
    ([exSoundBurstsEvent] : List Event) ≠ [] := by
  refine ⟨?_, by simp⟩
  have hc : candidates [] 16000 (Except.ok exClusterTimes) (Except.ok [])
      (fun _ => []) (fun _ => []) = [exSoundBurstsEvent] := by decide
  show (candidates [] 16000 (Except.ok exClusterTimes) (Except.ok [])
      (fun _ => []) (fun _ => [])).mergeSort startLE = [exSoundBurstsEvent]
  rw [hc]
  simp

/-- C9 (amended): there is no fewer-than-2-words short circuit; all
detectors always run.  For such transcripts the transcript-driven
detectors necessarily contribute nothing (a repetition needs a run of
3 identical words, blocks need at least 3 words), but the acoustic
detectors may still emit events, so the output need not be empty. -/
theorem few_words_transcript_detectors_empty (words : List Word)
    (h : words.length < 2) :
    detect_repetitions words = [] ∧
    (∀ reps prolongs : List Event, detect_blocks words reps prolongs = []) := by
  constructor
  · match words, h with
    | [], _ => rfl
    | [x], _ => simp [detect_repetitions, repsGo, countRun]
  · intro reps prolongs
    rw [detect_blocks, if_pos (by omega)]

/-- C9 amended witness: a one-word transcript. -/
theorem few_words_transcript_detectors_empty_witness :
    ([({ word := "hi", start := 0, stop := 1 } : Word)] : List Word).length < 2 ∧
    detect_repetitions [({ word := "hi", start := 0, stop := 1 } : Word)] = [] ∧
    detect_blocks [({ word := "hi", start := 0, stop := 1 } : Word)] [] [] = [] :=
  ⟨by decide,
    (few_words_transcript_detectors_empty _ (by decide)).1,
    (few_words_transcript_detectors_empty _ (by decide)).2 [] []⟩
